import Mathlib

/-!
Verification of the bounded concurrent search fan-out of RulesLawyerBot.

The development shallowly embeds the two core components of the repository:

* the bounded process invoker `search_inside_file_ugrep_impl`
  (src/agent/tools.py, function _search_inside_file_ugrep_impl), which
  classifies a finished ugrep subprocess by exit code, strips and truncates
  its captured stdout, and maps exit code 1 to a fixed no-match sentinel;

* the concurrent fan-out aggregator `parallel_search_terms`
  (src/agent/tools.py, function parallel_search_terms), which validates the
  term list, truncates it to 10 terms, launches one task per term, gathers
  results in task order via asyncio.gather with return_exceptions set, and
  builds a Python dict keyed by the verbatim term string, truncating each
  value to 5000 characters;

* the error dispatcher `safe_execution` (src/utils/safety.py), which maps a
  raised exception to a user-facing message by trying except clauses in
  source order;

* the process-wide counting semaphore (src/utils/safety.py, ugrep_semaphore),
  modelled as a labelled transition system over task phases.

Python strings are modelled as Lean strings; len and slicing act on code
points in both, so String.length and a take on the underlying character list
are faithful.  Python str.strip is modelled over the ASCII whitespace
characters it strips; no claim depends on exotic Unicode whitespace.
Emoji prefixes of the user-facing messages in safety.py are elided; no claim
mentions them.
-/

namespace RulesLawyerBot

/-- Whitespace predicate of Python str.strip restricted to ASCII: space, tab,
newline, carriage return, vertical tab, form feed. -/
def pyIsSpace (c : Char) : Bool :=
  c == ' ' || c == '\t' || c == '\n' || c == '\r' || c == Char.ofNat 11 || c == Char.ofNat 12

/-- Python str.strip: drop leading and trailing whitespace. -/
def pyStrip (s : String) : String :=
  String.mk (((s.data.dropWhile pyIsSpace).reverse.dropWhile pyIsSpace).reverse)

/-- Python slicing s[:n] : the first n code points of s. -/
def pySlice (s : String) (n : Nat) : String :=
  String.mk (s.data.take n)

/-- Marker appended by both truncation sites in src/agent/tools.py. -/
def truncMarker : String := "\n...(truncated)"

/-- Sentinel returned by the invoker when a search finds nothing. -/
def noMatchSentinel : String := "No matches found"

/-- Invoker-layer truncation (src/agent/tools.py lines 125-126): outputs
longer than 30000 characters are cut and the marker is appended. -/
def invokerTruncate (s : String) : String :=
  if s.length > 30000 then pySlice s 30000 ++ truncMarker else s

/-- Aggregator-layer truncation (src/agent/tools.py lines 224-225): values
longer than 5000 characters are cut and the marker is appended. -/
def aggTruncate (s : String) : String :=
  if s.length > 5000 then pySlice s 5000 ++ truncMarker else s

/-- Exit-code classification of a finished ugrep process, from
_search_inside_file_ugrep_impl (src/agent/tools.py lines 121-136).
The returncode is an Int because a subprocess killed by a signal reports a
negative code, which the source sends to the final else branch.
On exit code 0 the code strips stdout, truncates it, and returns the
sentinel when the result is empty; on exit code 1 it returns the sentinel;
on any other code it returns the fixed prefix followed by stripped stderr. -/
def search_inside_file_ugrep_impl (returncode : Int) (stdout stderr : String) : String :=
  if returncode = 0 then
    let output := invokerTruncate (pyStrip stdout)
    if output = "" then noMatchSentinel else output
  else if returncode = 1 then noMatchSentinel
  else "Search error: " ++ pyStrip stderr

/-- Exceptions that can reach the safe_execution wrapper
(src/utils/safety.py lines 112-152).  Constructors stand for the dynamic
class of the raised exception.  subprocessTimeoutExpired models
subprocess.TimeoutExpired, which subclasses SubprocessError and Exception
but NOT asyncio.TimeoutError, so in the source it is only caught by the
final except Exception clause. -/
inductive PyExc where
  | subprocessTimeoutExpired (cmd : String) (seconds : Nat)
  | asyncioTimeoutError
  | fileNotFoundError (msg : String)
  | permissionError (msg : String)
  | botError (userMessage : String) (logDetails : String)
  | otherExc (msg : String)
deriving DecidableEq

/-- Python str(e) for the exceptions above; for TimeoutExpired the format is
the one of subprocess.TimeoutExpired.__str__ with the quoted command. -/
def pyStrOfExc : PyExc → String
  | PyExc.subprocessTimeoutExpired cmd seconds =>
      "Command " ++ String.singleton (Char.ofNat 39) ++ cmd ++ String.singleton (Char.ofNat 39)
        ++ " timed out after " ++ toString seconds ++ " seconds"
  | PyExc.asyncioTimeoutError => ""
  | PyExc.fileNotFoundError msg => msg
  | PyExc.permissionError msg => msg
  | PyExc.botError _ logDetails => logDetails
  | PyExc.otherExc msg => msg

/-- Message of the except asyncio.TimeoutError branch of safe_execution. -/
def timeoutMsg : String := "Operation timed out. Please try more specific search terms."

/-- Message of the final except Exception branch of safe_execution. -/
def genericMsg : String :=
  "Something went wrong. Please try again or contact support if the issue persists."

/-- Filename extraction of the FileNotFoundError branch:
str(e).split(quote)[1] if a quote occurs in str(e) else the word unknown. -/
def extractFilename (msg : String) : String :=
  if msg.contains (Char.ofNat 39) then
    ((msg.splitOn (String.singleton (Char.ofNat 39))).getD 1 "")
  else "unknown"

/-- Error dispatcher safe_execution (src/utils/safety.py lines 112-152):
a successful result passes through; a raised exception is matched against
the except clauses in source order.  subprocessTimeoutExpired matches none
of the specific clauses (it is not an asyncio.TimeoutError subclass) and
falls to the generic handler. -/
def safe_execution (outcome : Except PyExc String) : String :=
  match outcome with
  | Except.ok s => s
  | Except.error e =>
    match e with
    | PyExc.asyncioTimeoutError => timeoutMsg
    | PyExc.fileNotFoundError msg =>
        "File not found: " ++ extractFilename msg
          ++ "\nPlease check the game name and try again."
    | PyExc.permissionError _ => "Permission denied. Please contact administrator."
    | PyExc.botError userMessage _ => userMessage
    | _ => genericMsg

/-- Result of one gathered per-term task, as seen by asyncio.gather with
return_exceptions set: either the string returned by
search_inside_file_ugrep_impl, or a raised exception carrying str(e). -/
inductive TaskResult where
  | value (s : String)
  | exn (e : String)
deriving DecidableEq

/-- Per-term value stored into the result dict by parallel_search_terms
(src/agent/tools.py lines 219-227): an exception becomes the Error prefix
followed by str(e); a returned string is truncated at 5000 characters. -/
def perTermValue : TaskResult → String
  | TaskResult.exn e => "Error: " ++ e
  | TaskResult.value s => aggTruncate s

/-- Python dict item assignment d[k] = v on a dict represented as an
association list in insertion order: when the key is present its value is
replaced in place, keeping its position; otherwise the pair is appended. -/
def dictInsert (d : List (String × String)) (k v : String) : List (String × String) :=
  if k ∈ d.map Prod.fst then d.map (fun p => if p.1 = k then (k, v) else p)
  else d ++ [(k, v)]

/-- Result dict of parallel_search_terms: fold the zipped (term, result)
pairs through dict item assignment, starting from the empty dict. -/
def buildResultDict (pairs : List (String × TaskResult)) : List (String × String) :=
  pairs.foldl (fun d p => dictInsert d p.1 (perTermValue p.2)) []

/-- Model of asyncio.gather slot filling: each task index in the completion
schedule writes its own result into its own slot; the returned list is the
slots in task order, so it is independent of the completion order. -/
def fillSlots (outcomes : List TaskResult) (sched : List Nat) : List (Option TaskResult) :=
  sched.foldl (fun acc i => acc.set i outcomes[i]?) (List.replicate outcomes.length none)

/-- Gathered results: the filled slots with the Option layer removed.  When
the schedule is a permutation of all task indices this equals the outcome
list in task order. -/
def gatherResults (outcomes : List TaskResult) (sched : List Nat) : List TaskResult :=
  (fillSlots outcomes sched).reduceOption

/-- Shape of the serialized reply of parallel_search_terms: either the
single top-level validation-error marker produced for an empty term list,
or the per-term result dict. -/
inductive SearchReply where
  | validationError (msg : String)
  | results (dict : List (String × String))
deriving DecidableEq

/-- Concurrent fan-out aggregator parallel_search_terms
(src/agent/tools.py lines 170-233).  The outcomes list holds the result of
the per-term task at each position of the truncated term list; sched is the
nondeterministic completion order of those tasks.  The source validates the
term list, truncates it to the first 10 terms, gathers the task results in
task order, and zips terms with results into the dict. -/
def parallel_search_terms (terms : List String) (outcomes : List TaskResult)
    (sched : List Nat) : SearchReply :=
  if terms = [] then SearchReply.validationError "No search terms provided"
  else
    let ts := if terms.length > 10 then terms.take 10 else terms
    SearchReply.results (buildResultDict (ts.zip (gatherResults outcomes sched)))

/-- Term list for which per-term tasks are created (src/agent/tools.py
lines 196-212): none for an empty request, otherwise the first 10 terms. -/
def launchedSearches (terms : List String) : List String :=
  if terms = [] then []
  else if terms.length > 10 then terms.take 10 else terms

/-- First-occurrence deduplication of a key list, the key order of a Python
dict built by repeated item assignment. -/
def firstDedup (ks : List String) : List String :=
  ks.foldl (fun acc k => if k ∈ acc then acc else acc ++ [k]) []

/-- Value lookup in the association-list dict: second component of the first
pair whose key matches. -/
def dictFind (d : List (String × String)) (k : String) : Option String :=
  (d.find? (fun p => decide (p.1 = k))).map Prod.snd

/-- Last pair with the given key among the zipped (term, result) pairs; its
result is the one a Python dict retains for a duplicated key. -/
def lastValueFor (k : String) (pairs : List (String × TaskResult)) : Option TaskResult :=
  (pairs.reverse.find? (fun p => decide (p.1 = k))).map Prod.snd

/-- Phase of one search invocation with respect to the shared semaphore:
waiting to acquire, holding a slot while the ugrep process runs, or settled
with the slot given back.  The async with block of the source releases the
slot on every exit path, normal or exceptional, so settling and releasing
coincide. -/
inductive TaskPhase where
  | waiting
  | running
  | settled
deriving DecidableEq

/-- State of the process-wide counting semaphore ugrep_semaphore
(src/utils/safety.py line 78) together with the phases of all invocations
that will use it: avail is the internal counter of asyncio.Semaphore. -/
structure SemState where
  avail : Nat
  phases : List TaskPhase
deriving DecidableEq

/-- Number of invocations currently holding a slot, i.e. with a live ugrep
process. -/
def countRunning (ps : List TaskPhase) : Nat :=
  ps.countP (fun p => decide (p = TaskPhase.running))

/-- Initial state: the semaphore is created once at process start with its
configured capacity (settings.max_concurrent_searches, default 4) and no
invocation has started. -/
def semInit (capacity numTasks : Nat) : SemState :=
  { avail := capacity, phases := List.replicate numTasks TaskPhase.waiting }

/-- Transitions of the semaphore system.  A waiting invocation may acquire
a slot only when the counter is positive (asyncio.Semaphore.acquire);
a running invocation settles and releases its slot exactly once
(the async with block releases unconditionally on exit).  Settled
invocations have no further transitions. -/
inductive SemStep : SemState → SemState → Prop where
  | acquire (s : SemState) (i : Nat)
      (hi : s.phases[i]? = some TaskPhase.waiting) (hav : 0 < s.avail) :
      SemStep s { avail := s.avail - 1, phases := s.phases.set i TaskPhase.running }
  | release (s : SemState) (i : Nat)
      (hi : s.phases[i]? = some TaskPhase.running) :
      SemStep s { avail := s.avail + 1, phases := s.phases.set i TaskPhase.settled }

/-- Reachability from the initial state by any interleaving of acquires and
releases. -/
def SemReachable (capacity numTasks : Nat) (s : SemState) : Prop :=
  Relation.ReflTransGen SemStep (semInit capacity numTasks) s

/-- Concrete string of 30001 characters, above the invoker truncation
ceiling. -/
def bigOutput : String := String.mk (List.replicate 30001 (Char.ofNat 97))

/-- Concrete string of 5001 characters, above the aggregator truncation
ceiling. -/
def bigValue : String := String.mk (List.replicate 5001 (Char.ofNat 98))

lemma countP_set_balance (p : TaskPhase → Bool) :
    ∀ (ps : List TaskPhase) (i : Nat) (a x : TaskPhase), ps[i]? = some a →
    (ps.set i x).countP p + (if p a then 1 else 0)
      = ps.countP p + (if p x then 1 else 0) := by
  intro ps
  induction ps with
  | nil => intro i a x h; simp at h
  | cons hd tl ih =>
    intro i a x h
    cases i with
    | zero =>
      simp only [List.getElem?_cons_zero, Option.some_inj] at h
      subst h
      simp only [List.set_cons_zero, List.countP_cons]
      omega
    | succ j =>
      simp only [List.getElem?_cons_succ] at h
      have hb := ih j a x h
      simp only [List.set_cons_succ, List.countP_cons]
      omega

lemma countRunning_replicate (n : Nat) :
    countRunning (List.replicate n TaskPhase.waiting) = 0 := by
  induction n with
  | zero => rfl
  | succ m ih =>
    simp only [countRunning, List.replicate_succ, List.countP_cons] at ih ⊢
    simp [ih]

lemma semStep_inv {C : Nat} {s t : SemState} (hstep : SemStep s t)
    (hinv : s.avail + countRunning s.phases = C) :
    t.avail + countRunning t.phases = C := by
  cases hstep with
  | acquire i hi hav =>
    have hb := countP_set_balance (fun p => decide (p = TaskPhase.running))
      s.phases i TaskPhase.waiting TaskPhase.running hi
    simp only [countRunning] at hinv ⊢
    simp only [decide_eq_true_eq] at hb
    simp only [reduceCtorEq, if_false, if_true] at hb
    omega
  | release i hi =>
    have hb := countP_set_balance (fun p => decide (p = TaskPhase.running))
      s.phases i TaskPhase.running TaskPhase.settled hi
    simp only [countRunning] at hinv ⊢
    simp only [decide_eq_true_eq] at hb
    simp only [reduceCtorEq, if_false, if_true] at hb
    omega

lemma semReachable_inv {capacity numTasks : Nat} {s : SemState}
    (h : SemReachable capacity numTasks s) :
    s.avail + countRunning s.phases = capacity := by
  induction h with
  | refl => simp [semInit, countRunning_replicate]
  | tail _ hstep ih => exact semStep_inv hstep ih

lemma length_foldl_set (outcomes : List TaskResult) :
    ∀ (sched : List Nat) (start : List (Option TaskResult)),
    (sched.foldl (fun acc i => acc.set i outcomes[i]?) start).length = start.length := by
  intro sched
  induction sched with
  | nil => intro start; rfl
  | cons i rest ih =>
    intro start
    rw [List.foldl_cons, ih, List.length_set]

lemma getElem?_foldl_set (outcomes : List TaskResult) :
    ∀ (sched : List Nat) (start : List (Option TaskResult)) (j : Nat), j < start.length →
    (sched.foldl (fun acc i => acc.set i outcomes[i]?) start)[j]?
      = if j ∈ sched then some outcomes[j]? else start[j]? := by
  intro sched
  induction sched with
  | nil => intro start j hj; simp
  | cons i rest ih =>
    intro start j hj
    rw [List.foldl_cons, ih (start.set i outcomes[i]?) j (by rw [List.length_set]; exact hj)]
    rw [List.getElem?_set]
    by_cases hjr : j ∈ rest
    · simp [hjr]
    · by_cases hij : i = j
      · subst hij
        simp [hjr, hj]
      · have hji : ¬ j = i := fun hh => hij hh.symm
        simp [hjr, hij, hji]

lemma fillSlots_perm (outcomes : List TaskResult) (sched : List Nat)
    (hp : sched.Perm (List.range outcomes.length)) :
    fillSlots outcomes sched = outcomes.map some := by
  apply List.ext_getElem?
  intro j
  by_cases hj : j < outcomes.length
  · have hlen : j < (List.replicate outcomes.length (none : Option TaskResult)).length := by
      simpa using hj
    have hmem : j ∈ sched := hp.mem_iff.mpr (List.mem_range.mpr hj)
    rw [fillSlots, getElem?_foldl_set outcomes sched _ j hlen]
    simp [hmem, List.getElem?_map, List.getElem?_eq_getElem hj]
  · have h1 : (fillSlots outcomes sched).length = outcomes.length := by
      rw [fillSlots, length_foldl_set, List.length_replicate]
    rw [List.getElem?_eq_none (by omega), List.getElem?_eq_none (by simp; omega)]

lemma reduceOption_map_some_eq (l : List TaskResult) :
    (l.map some).reduceOption = l := by
  induction l with
  | nil => rfl
  | cons h t ih => simp [List.reduceOption_cons_of_some, ih]

lemma gather_perm (outcomes : List TaskResult) (sched : List Nat)
    (hp : sched.Perm (List.range outcomes.length)) :
    gatherResults outcomes sched = outcomes := by
  rw [gatherResults, fillSlots_perm outcomes sched hp, reduceOption_map_some_eq]

lemma keys_dictInsert (d : List (String × String)) (k v : String) :
    (dictInsert d k v).map Prod.fst
      = if k ∈ d.map Prod.fst then d.map Prod.fst else d.map Prod.fst ++ [k] := by
  by_cases hk : k ∈ d.map Prod.fst
  · simp only [dictInsert, hk, if_true, List.map_map]
    apply List.map_congr_left
    intro p _
    by_cases hp : p.1 = k
    · simp [hp]
    · simp [hp]
  · simp [dictInsert, hk]

lemma dictInsert_ne_nil (d : List (String × String)) (k v : String) :
    dictInsert d k v ≠ [] := by
  cases d with
  | nil => simp [dictInsert]
  | cons p rest =>
    rw [dictInsert]
    split_ifs <;> simp

lemma foldl_dictInsert_ne_nil :
    ∀ (pairs : List (String × TaskResult)) (d : List (String × String)),
    (d ≠ [] ∨ pairs ≠ []) →
    pairs.foldl (fun acc p => dictInsert acc p.1 (perTermValue p.2)) d ≠ [] := by
  intro pairs
  induction pairs with
  | nil =>
    intro d hd
    simpa using hd.resolve_right (by simp)
  | cons p rest ih =>
    intro d _
    rw [List.foldl_cons]
    exact ih (dictInsert d p.1 (perTermValue p.2)) (Or.inl (dictInsert_ne_nil d p.1 _))

lemma foldl_dictInsert_fresh :
    ∀ (pairs : List (String × TaskResult)) (d : List (String × String)),
    (∀ k, k ∈ pairs.map Prod.fst → k ∉ d.map Prod.fst) →
    (pairs.map Prod.fst).Nodup →
    pairs.foldl (fun acc p => dictInsert acc p.1 (perTermValue p.2)) d
      = d ++ pairs.map (fun p => (p.1, perTermValue p.2)) := by
  intro pairs
  induction pairs with
  | nil => intro d _ _; simp
  | cons p rest ih =>
    intro d hfresh hnd
    simp only [List.map_cons, List.nodup_cons] at hnd
    have hp1 : p.1 ∉ d.map Prod.fst := hfresh p.1 (by simp)
    have hins : dictInsert d p.1 (perTermValue p.2) = d ++ [(p.1, perTermValue p.2)] := by
      rw [dictInsert, if_neg hp1]
    rw [List.foldl_cons, hins,
      ih (d ++ [(p.1, perTermValue p.2)]) ?fresh hnd.2]
    · simp
    case fresh =>
      intro k hk
      have hkp : k ≠ p.1 := by
        intro hkp; exact hnd.1 (hkp ▸ hk)
      have hkd : k ∉ d.map Prod.fst := hfresh k (by simp [hk])
      simp [hkd, hkp]

lemma buildResultDict_nodup (pairs : List (String × TaskResult))
    (h : (pairs.map Prod.fst).Nodup) :
    buildResultDict pairs = pairs.map (fun p => (p.1, perTermValue p.2)) := by
  have hh := foldl_dictInsert_fresh pairs [] (by simp) h
  simpa [buildResultDict] using hh

lemma keys_foldl_dictInsert :
    ∀ (pairs : List (String × TaskResult)) (d : List (String × String)),
    (pairs.foldl (fun acc p => dictInsert acc p.1 (perTermValue p.2)) d).map Prod.fst
      = pairs.foldl (fun acc p => if p.1 ∈ acc then acc else acc ++ [p.1])
          (d.map Prod.fst) := by
  intro pairs
  induction pairs with
  | nil => intro d; simp
  | cons p rest ih =>
    intro d
    rw [List.foldl_cons, List.foldl_cons, ih, keys_dictInsert]

lemma keys_buildResultDict (pairs : List (String × TaskResult)) :
    (buildResultDict pairs).map Prod.fst = firstDedup (pairs.map Prod.fst) := by
  rw [buildResultDict, keys_foldl_dictInsert, firstDedup, List.foldl_map]
  rfl

lemma dictFind_dictInsert (d : List (String × String)) (k v kq : String) :
    dictFind (dictInsert d k v) kq = if kq = k then some v else dictFind d kq := by
  by_cases hk : k ∈ d.map Prod.fst
  · rw [dictInsert, if_pos hk]
    simp only [dictFind]
    rw [List.find?_map]
    by_cases hkq : kq = k
    · subst hkq
      have hcomp : ((fun q : String × String => decide (q.1 = kq))
            ∘ (fun p => if p.1 = kq then (kq, v) else p))
          = fun p : String × String => decide (p.1 = kq) := by
        funext p
        by_cases hp : p.1 = kq <;> simp [hp]
      rw [hcomp]
      obtain ⟨p0, hp0, hp0k⟩ := List.mem_map.mp hk
      have hsome : (List.find? (fun p : String × String => decide (p.1 = kq)) d).isSome :=
        List.find?_isSome.mpr ⟨p0, hp0, by simp [hp0k]⟩
      obtain ⟨q, hq⟩ := Option.isSome_iff_exists.mp hsome
      have hq1 : q.1 = kq := by simpa using List.find?_some hq
      rw [hq, if_pos rfl]
      simp [hq1]
    · have h1 : ¬ (k = kq) := fun hh => hkq hh.symm
      have hcomp : ((fun q : String × String => decide (q.1 = kq))
            ∘ (fun p => if p.1 = k then (k, v) else p))
          = fun p : String × String => decide (p.1 = kq) := by
        funext p
        by_cases hp : p.1 = k
        · have h2 : ¬ (p.1 = kq) := by rw [hp]; exact h1
          simp [hp, h1, h2]
        · simp [hp]
      rw [hcomp, if_neg hkq]
      cases hfind : List.find? (fun p : String × String => decide (p.1 = kq)) d with
      | none => simp [hfind]
      | some q =>
        have hq1 : q.1 = kq := by simpa using List.find?_some hfind
        have hqk : ¬ q.1 = k := by rw [hq1]; exact hkq
        simp [hfind, hqk]
  · rw [dictInsert, if_neg hk]
    simp only [dictFind]
    rw [List.find?_append]
    by_cases hkq : kq = k
    · subst hkq
      have hnone : List.find? (fun p : String × String => decide (p.1 = kq)) d = none := by
        rw [List.find?_eq_none]
        intro p hp
        simp only [decide_eq_true_eq]
        intro hpk
        exact hk (List.mem_map.mpr ⟨p, hp, hpk⟩)
      simp [hnone, List.find?_cons]
    · have h1 : ¬ (k = kq) := fun hh => hkq hh.symm
      have hone : List.find? (fun p : String × String => decide (p.1 = kq)) [(k, v)]
          = none := by
        simp [List.find?_cons, h1]
      rw [hone, Option.or_none, if_neg hkq]

lemma dictFind_foldl :
    ∀ (pairs : List (String × TaskResult)) (d : List (String × String)) (k : String),
    dictFind (pairs.foldl (fun acc p => dictInsert acc p.1 (perTermValue p.2)) d) k
      = ((lastValueFor k pairs).map perTermValue).or (dictFind d k) := by
  intro pairs
  induction pairs with
  | nil =>
    intro d k
    simp [lastValueFor]
  | cons p rest ih =>
    intro d k
    rw [List.foldl_cons, ih, dictFind_dictInsert]
    have hlast : lastValueFor k (p :: rest)
        = (lastValueFor k rest).or (if p.1 = k then some p.2 else none) := by
      simp only [lastValueFor]
      rw [List.reverse_cons, List.find?_append]
      cases hfind : List.find? (fun q : String × TaskResult => decide (q.1 = k))
          rest.reverse with
      | none =>
        by_cases hp : p.1 = k <;> simp [hfind, List.find?_cons, hp]
      | some q =>
        simp [hfind]
    rw [hlast]
    by_cases hp : p.1 = k
    · rw [if_pos hp, if_pos hp.symm]
      cases hl : lastValueFor k rest with
      | none => simp
      | some r => simp
    · have hkp : ¬ k = p.1 := fun hh => hp hh.symm
      rw [if_neg hp, if_neg hkp]
      cases hl : lastValueFor k rest with
      | none => simp
      | some r => simp

lemma dictFind_buildResultDict (pairs : List (String × TaskResult)) (k : String) :
    dictFind (buildResultDict pairs) k = (lastValueFor k pairs).map perTermValue := by
  have hh := dictFind_foldl pairs [] k
  simpa [buildResultDict, dictFind] using hh

lemma length_pySlice (s : String) (n : Nat) : (pySlice s n).length = min n s.length := by
  show (s.data.take n).length = min n s.data.length
  exact List.length_take n s.data

lemma length_truncMarker : truncMarker.length = 15 := rfl

lemma invokerTruncate_ne_empty (s : String) (h : s ≠ "") : invokerTruncate s ≠ "" := by
  rw [invokerTruncate]
  split_ifs with hlen
  · intro hcontr
    have hlen2 := congrArg String.length hcontr
    rw [String.length_append, length_truncMarker] at hlen2
    simp at hlen2
  · exact h

lemma parallel_search_results (terms : List String) (outcomes : List TaskResult)
    (sched : List Nat) (hne : terms ≠ []) (h10 : terms.length ≤ 10)
    (hlen : outcomes.length = terms.length)
    (hs : sched.Perm (List.range outcomes.length)) :
    parallel_search_terms terms outcomes sched
      = SearchReply.results (buildResultDict (terms.zip outcomes)) := by
  rw [parallel_search_terms, if_neg hne]
  have hgt : ¬ (terms.length > 10) := by omega
  simp only [hgt, if_false, gather_perm outcomes sched hs]

lemma bigOutput_length : bigOutput.length = 30001 := by
  show (List.replicate 30001 (Char.ofNat 97)).length = 30001
  exact List.length_replicate 30001 _

lemma bigValue_length : bigValue.length = 5001 := by
  show (List.replicate 5001 (Char.ofNat 98)).length = 5001
  exact List.length_replicate 5001 _

/-- C4: the claim says a timed-out search is reported as a TimedOut-classified
outcome whose errorDetail names the exceeded 30-second ceiling.  The code
disagrees: subprocess.run raises subprocess.TimeoutExpired, which is not a
subclass of asyncio.TimeoutError, so in safe_execution the dedicated
timeout handler (which exists and answers with timeoutMsg) never fires for
it and the call falls through to the generic except Exception handler.
This theorem evaluates the dispatcher at the failing exception and shows it
returns the generic message, not the timeout message the handler was
written to produce. -/
theorem timeout_reaches_generic_handler :
    safe_execution (Except.error (PyExc.subprocessTimeoutExpired "ugrep" 30)) = genericMsg
    ∧ genericMsg ≠ timeoutMsg
    ∧ safe_execution (Except.error PyExc.asyncioTimeoutError) = timeoutMsg := by
  refine ⟨rfl, by decide, rfl⟩

/-- C5 counterexample: a process that exits with code 0 but writes only
whitespace to stdout is reported with the NoMatch sentinel, not with a
Matched outcome carrying the captured standard output (neither the raw nor
the stripped form), so the claimed classification fails at this input. -/
theorem ugrep_exit_zero_empty_counterexample :
    search_inside_file_ugrep_impl 0 " " "boom" = noMatchSentinel
    ∧ noMatchSentinel ≠ " "
    ∧ noMatchSentinel ≠ pyStrip " " := by
  refine ⟨rfl, by decide, by decide⟩

/-- C5 amended: classification by exit code as the code implements it.
Exit code 0 yields the stripped stdout, truncated at the invoker ceiling,
except that a whitespace-only stdout yields the NoMatch sentinel; exit code
1 yields the sentinel; any other exit code (including negative codes from
signals) yields the fixed error prefix followed by the stripped stderr,
which is the bare prefix when stderr is empty. -/
theorem ugrep_exit_code_classification (returncode : Int) (stdout stderr : String) :
    search_inside_file_ugrep_impl returncode stdout stderr =
      if returncode = 0 then
        (if pyStrip stdout = "" then noMatchSentinel
         else invokerTruncate (pyStrip stdout))
      else if returncode = 1 then noMatchSentinel
      else "Search error: " ++ pyStrip stderr := by
  rw [search_inside_file_ugrep_impl]
  by_cases h0 : returncode = 0
  · rw [if_pos h0, if_pos h0]
    by_cases hs : pyStrip stdout = ""
    · rw [if_pos hs, hs]
      rfl
    · rw [if_neg hs, if_neg (invokerTruncate_ne_empty _ hs)]
  · rw [if_neg h0, if_neg h0]

/-- C10: a process exiting with code 0 whose stdout strips to the empty
string is reported with the same fixed sentinel as an exit-code-1 no-match
result, for any captured stderr, so the two cases are indistinguishable at
the public interface. -/
theorem ugrep_empty_stdout_is_nomatch (stdout stderr1 stderr2 : String)
    (h : pyStrip stdout = "") :
    search_inside_file_ugrep_impl 0 stdout stderr1 = noMatchSentinel
    ∧ search_inside_file_ugrep_impl 0 stdout stderr1
        = search_inside_file_ugrep_impl 1 stdout stderr2 := by
  have h1 : search_inside_file_ugrep_impl 0 stdout stderr1 = noMatchSentinel := by
    rw [search_inside_file_ugrep_impl, if_pos rfl, h]
    rfl
  have h2 : search_inside_file_ugrep_impl 1 stdout stderr2 = noMatchSentinel := by
    rw [search_inside_file_ugrep_impl, if_neg (by decide), if_pos rfl]
  exact ⟨h1, h1.trans h2.symm⟩

/-- C10 witness: a concrete whitespace-only stdout under exit code 0 gives
the sentinel and agrees with the exit-code-1 outcome. -/
theorem ugrep_empty_stdout_is_nomatch_witness :
    search_inside_file_ugrep_impl 0 " \n " "errA" = noMatchSentinel
    ∧ search_inside_file_ugrep_impl 0 " \n " "errA"
        = search_inside_file_ugrep_impl 1 " \n " "errB" :=
  ugrep_empty_stdout_is_nomatch " \n " "errA" "errB" (by decide)

/-- C9: the invoker truncates at 30000 characters and the aggregator
independently truncates at 5000 characters; each layer passes values at or
under its ceiling through unchanged and appends the marker above it, and an
over-long invoker output is truncated again by the aggregator layer. -/
theorem truncation_two_layers (s t v u : String)
    (hs : s.length ≤ 30000) (ht : t.length > 30000)
    (hv : v.length ≤ 5000) (hu : u.length > 5000) :
    invokerTruncate s = s
    ∧ invokerTruncate t = pySlice t 30000 ++ truncMarker
    ∧ aggTruncate v = v
    ∧ aggTruncate u = pySlice u 5000 ++ truncMarker
    ∧ aggTruncate (invokerTruncate t)
        = pySlice (pySlice t 30000 ++ truncMarker) 5000 ++ truncMarker := by
  have h1 : invokerTruncate s = s := by
    rw [invokerTruncate, if_neg (by omega)]
  have h2 : invokerTruncate t = pySlice t 30000 ++ truncMarker := by
    rw [invokerTruncate, if_pos (by omega)]
  have h3 : aggTruncate v = v := by
    rw [aggTruncate, if_neg (by omega)]
  have h4 : aggTruncate u = pySlice u 5000 ++ truncMarker := by
    rw [aggTruncate, if_pos (by omega)]
  have hlong : (pySlice t 30000 ++ truncMarker).length > 5000 := by
    rw [String.length_append, length_pySlice, length_truncMarker]
    omega
  have h5 : aggTruncate (invokerTruncate t)
      = pySlice (pySlice t 30000 ++ truncMarker) 5000 ++ truncMarker := by
    rw [h2, aggTruncate, if_pos hlong]
  exact ⟨h1, h2, h3, h4, h5⟩

/-- C9 witness: concrete strings on each side of both ceilings. -/
theorem truncation_two_layers_witness :
    invokerTruncate "ab" = "ab"
    ∧ invokerTruncate bigOutput = pySlice bigOutput 30000 ++ truncMarker
    ∧ aggTruncate "cd" = "cd"
    ∧ aggTruncate bigValue = pySlice bigValue 5000 ++ truncMarker
    ∧ aggTruncate (invokerTruncate bigOutput)
        = pySlice (pySlice bigOutput 30000 ++ truncMarker) 5000 ++ truncMarker :=
  truncation_two_layers "ab" bigOutput "cd" bigValue
    (by decide) (by rw [bigOutput_length]; omega)
    (by decide) (by rw [bigValue_length]; omega)

/-- C1: for a request with 1 to 10 distinct terms, the aggregate holds
exactly one entry per input term, keyed by the verbatim term string and in
the input order (the entry at each position is built from that position's
own term and outcome), and the reply is identical under any two completion
schedules of the per-term tasks. -/
theorem parallel_search_order_and_coverage (terms : List String)
    (outcomes : List TaskResult) (sched1 sched2 : List Nat)
    (hnd : terms.Nodup) (h1 : 1 ≤ terms.length) (h10 : terms.length ≤ 10)
    (hlen : outcomes.length = terms.length)
    (hs1 : sched1.Perm (List.range outcomes.length))
    (hs2 : sched2.Perm (List.range outcomes.length)) :
    parallel_search_terms terms outcomes sched1
        = SearchReply.results
            ((terms.zip outcomes).map (fun p => (p.1, perTermValue p.2)))
    ∧ parallel_search_terms terms outcomes sched1
        = parallel_search_terms terms outcomes sched2 := by
  have hne : terms ≠ [] := by
    intro hh; subst hh; simp at h1
  have hkeys : ((terms.zip outcomes).map Prod.fst).Nodup := by
    rw [List.map_fst_zip _ _ (by omega)]
    exact hnd
  constructor
  · rw [parallel_search_results terms outcomes sched1 hne h10 hlen hs1,
      buildResultDict_nodup _ hkeys]
  · rw [parallel_search_results terms outcomes sched1 hne h10 hlen hs1,
      parallel_search_results terms outcomes sched2 hne h10 hlen hs2]

/-- C1 witness: two distinct terms under two different completion orders
give the same reply, with one entry per term in input order. -/
theorem parallel_search_order_and_coverage_witness :
    parallel_search_terms ["alpha", "beta"]
        [TaskResult.value "x", TaskResult.value "y"] [1, 0]
      = SearchReply.results [("alpha", "x"), ("beta", "y")]
    ∧ parallel_search_terms ["alpha", "beta"]
        [TaskResult.value "x", TaskResult.value "y"] [1, 0]
      = parallel_search_terms ["alpha", "beta"]
          [TaskResult.value "x", TaskResult.value "y"] [0, 1] := by
  have h := parallel_search_order_and_coverage ["alpha", "beta"]
    [TaskResult.value "x", TaskResult.value "y"] [1, 0] [0, 1]
    (by decide) (by decide) (by decide) (by decide) (by decide) (by decide)
  exact ⟨h.1.trans (by decide), h.2⟩

/-- C3 counterexample: for a request that duplicates a term, the claim
fails: when the first occurrence raises an exception and the second
succeeds, the dict assignment of the later occurrence overwrites the
Error entry of the failing one, so the reply holds only the success value
and no entry records the exception's description. -/
theorem parallel_search_exception_overwritten_counterexample :
    parallel_search_terms ["a", "a"]
        [TaskResult.exn "boom", TaskResult.value "x"] [0, 1]
      = SearchReply.results [("a", "x")]
    ∧ ("a", "Error: " ++ "boom") ∉ [("a", "x")] := by
  refine ⟨by decide, by decide⟩

/-- C3 amended: for a request with distinct terms, when the task at
position k raises an exception with description e, the reply is still the
per-term dict whose entry at every position is built from that position's
own term and outcome, so no other entry is affected and nothing propagates
to the caller, and the entry at position k pairs the failing term with the
Error prefix followed by the description.  Distinctness is required: a
duplicated term's later occurrence overwrites the error entry. -/
theorem parallel_search_exception_isolation (terms : List String)
    (outcomes : List TaskResult) (sched : List Nat) (k : Nat) (e : String)
    (hnd : terms.Nodup) (h1 : 1 ≤ terms.length) (h10 : terms.length ≤ 10)
    (hlen : outcomes.length = terms.length)
    (hs : sched.Perm (List.range outcomes.length))
    (hexn : outcomes[k]? = some (TaskResult.exn e)) :
    parallel_search_terms terms outcomes sched
        = SearchReply.results
            ((terms.zip outcomes).map (fun p => (p.1, perTermValue p.2)))
    ∧ ((terms.zip outcomes).map (fun p => (p.1, perTermValue p.2)))[k]?
        = (terms[k]?).map (fun t => (t, "Error: " ++ e)) := by
  have hne : terms ≠ [] := by
    intro hh; subst hh; simp at h1
  have hkeys : ((terms.zip outcomes).map Prod.fst).Nodup := by
    rw [List.map_fst_zip _ _ (by omega)]
    exact hnd
  have hmain : parallel_search_terms terms outcomes sched
      = SearchReply.results
          ((terms.zip outcomes).map (fun p => (p.1, perTermValue p.2))) := by
    rw [parallel_search_results terms outcomes sched hne h10 hlen hs,
      buildResultDict_nodup _ hkeys]
  refine ⟨hmain, ?_⟩
  have hk : k < outcomes.length := by
    by_contra hcon
    rw [List.getElem?_eq_none (by omega)] at hexn
    exact Option.noConfusion hexn
  have hkt : k < terms.length := by omega
  have hout : outcomes[k] = TaskResult.exn e := by
    rw [List.getElem?_eq_getElem hk] at hexn
    exact Option.some_inj.mp hexn
  rw [List.getElem?_map,
    List.getElem?_eq_getElem (by rw [List.length_zip]; omega : k < (terms.zip outcomes).length),
    List.getElem_zip, List.getElem?_eq_getElem hkt]
  simp [hout, perTermValue]

/-- C3 witness: the middle of three terms fails with an exception; the
other two entries are intact and in order, and the failing entry carries
the error text. -/
theorem parallel_search_exception_isolation_witness :
    parallel_search_terms ["good", "bad", "neutral"]
        [TaskResult.value "x", TaskResult.exn "boom", TaskResult.value "z"] [2, 0, 1]
      = SearchReply.results
          [("good", "x"), ("bad", "Error: boom"), ("neutral", "z")] := by
  have h := parallel_search_exception_isolation ["good", "bad", "neutral"]
    [TaskResult.value "x", TaskResult.exn "boom", TaskResult.value "z"] [2, 0, 1] 1 "boom"
    (by decide) (by decide) (by decide) (by decide) (by decide) (by decide)
  exact h.1.trans (by decide)

/-- C6 counterexample: a request whose term list repeats the same term
twice produces a single dict entry, not one entry per input position, so
the number of entries is below the number of (truncated) input terms. -/
theorem parallel_search_duplicates_counterexample :
    parallel_search_terms ["a", "a"]
        [TaskResult.value "x", TaskResult.value "y"] [0, 1]
      = SearchReply.results [("a", "y")]
    ∧ ([("a", "y")] : List (String × String)).length ≠ 2 := by
  refine ⟨by decide, by decide⟩

/-- C6 amended: duplicate terms collapse because the aggregate is a Python
dict keyed by the term string.  The reply contains exactly one entry per
distinct term among the first 10, ordered by first occurrence, and the
value retained for a duplicated term is the one of its last occurrence. -/
theorem parallel_search_duplicates_amended (terms : List String)
    (outcomes : List TaskResult) (sched : List Nat) (hne : terms ≠ [])
    (hlen : outcomes.length = (terms.take 10).length)
    (hs : sched.Perm (List.range outcomes.length)) :
    parallel_search_terms terms outcomes sched
        = SearchReply.results (buildResultDict ((terms.take 10).zip outcomes))
    ∧ (buildResultDict ((terms.take 10).zip outcomes)).map Prod.fst
        = firstDedup (terms.take 10)
    ∧ ∀ k, dictFind (buildResultDict ((terms.take 10).zip outcomes)) k
        = (lastValueFor k ((terms.take 10).zip outcomes)).map perTermValue := by
  have hfst : ((terms.take 10).zip outcomes).map Prod.fst = terms.take 10 :=
    List.map_fst_zip _ _ (by omega)
  refine ⟨?_, ?_, ?_⟩
  · by_cases hgt : terms.length > 10
    · rw [parallel_search_terms, if_neg hne, if_pos hgt, gather_perm outcomes sched hs]
    · have htake : terms.take 10 = terms := List.take_of_length_le (by omega)
      rw [htake] at hlen ⊢
      exact parallel_search_results terms outcomes sched hne (by omega) hlen hs
  · rw [keys_buildResultDict, hfst]
  · intro k
    exact dictFind_buildResultDict _ k

/-- C6 amended witness: the duplicated first term collapses to one entry at
its first position, keeping the value of its last occurrence. -/
theorem parallel_search_duplicates_amended_witness :
    parallel_search_terms ["a", "a", "b"]
        [TaskResult.value "x", TaskResult.value "y", TaskResult.value "z"] [0, 1, 2]
      = SearchReply.results [("a", "y"), ("b", "z")]
    ∧ firstDedup (["a", "a", "b"].take 10) = ["a", "b"]
    ∧ dictFind (buildResultDict ((["a", "a", "b"].take 10).zip
        [TaskResult.value "x", TaskResult.value "y", TaskResult.value "z"])) "a"
      = some "y" := by
  have h := parallel_search_duplicates_amended ["a", "a", "b"]
    [TaskResult.value "x", TaskResult.value "y", TaskResult.value "z"] [0, 1, 2]
    (by decide) (by decide) (by decide)
  refine ⟨h.1.trans (by decide), ?_, ?_⟩
  · exact (h.2.1.symm.trans (by decide)).symm.trans rfl
  · exact (h.2.2 "a").trans (by decide)

/-- C7: an empty term list yields the single top-level validation-error
marker; every nonempty term list yields a nonempty per-term dict, so the
marker shape occurs for the empty request only. -/
theorem parallel_search_empty_terms_marker (terms : List String)
    (outcomes : List TaskResult) (sched : List Nat)
    (hlen : outcomes.length = (terms.take 10).length)
    (hs : sched.Perm (List.range outcomes.length)) :
    (terms = [] → parallel_search_terms terms outcomes sched
        = SearchReply.validationError "No search terms provided")
    ∧ (terms ≠ [] → ∃ d, d ≠ []
        ∧ parallel_search_terms terms outcomes sched = SearchReply.results d) := by
  constructor
  · intro hh
    rw [parallel_search_terms, if_pos hh]
  · intro hne
    rw [parallel_search_terms, if_neg hne]
    refine ⟨_, ?_, rfl⟩
    have hlt : 0 < terms.length := List.length_pos.mpr hne
    have htake : 0 < (terms.take 10).length := by
      rw [List.length_take]; omega
    have hlen2 : (if terms.length > 10 then terms.take 10 else terms).length
        = (terms.take 10).length := by
      split_ifs with hgt
      · rfl
      · rw [List.take_of_length_le (by omega)]
    have hg : (gatherResults outcomes sched).length = outcomes.length := by
      rw [gather_perm outcomes sched hs]
    have hzlen : 0 < ((if terms.length > 10 then terms.take 10 else terms).zip
        (gatherResults outcomes sched)).length := by
      rw [List.length_zip, hlen2, hg, hlen]
      omega
    rw [buildResultDict]
    exact foldl_dictInsert_ne_nil _ [] (Or.inr (List.length_pos.mp hzlen))

/-- C7 witness: the empty request returns the validation-error marker. -/
theorem parallel_search_empty_terms_marker_witness :
    parallel_search_terms [] [] []
      = SearchReply.validationError "No search terms provided" :=
  (parallel_search_empty_terms_marker [] [] [] (by decide) (by decide)).1 rfl

/-- C8: a request with more than 10 terms behaves exactly like the request
truncated to its first 10 terms, and tasks are created for exactly those
10 terms, so no entry, value or invocation arises from positions 11 and
beyond. -/
theorem parallel_search_truncates_to_ten (terms : List String)
    (outcomes : List TaskResult) (sched : List Nat) (hgt : terms.length > 10) :
    parallel_search_terms terms outcomes sched
        = parallel_search_terms (terms.take 10) outcomes sched
    ∧ launchedSearches terms = terms.take 10
    ∧ (launchedSearches terms).length = 10 := by
  have hne : terms ≠ [] := by
    intro hh; subst hh; simp at hgt
  have hlen10 : (terms.take 10).length = 10 := by
    rw [List.length_take]; omega
  have hne10 : terms.take 10 ≠ [] := by
    intro hh
    rw [hh] at hlen10
    simp at hlen10
  refine ⟨?_, ?_, ?_⟩
  · rw [parallel_search_terms, parallel_search_terms, if_neg hne, if_neg hne10,
      if_pos hgt, if_neg (by omega : ¬ (terms.take 10).length > 10)]
  · rw [launchedSearches, if_neg hne, if_pos hgt]
  · rw [launchedSearches, if_neg hne, if_pos hgt, hlen10]

/-- C8 witness: an 11-term request behaves as its 10-term truncation and
launches exactly 10 searches. -/
theorem parallel_search_truncates_to_ten_witness :
    parallel_search_terms (List.replicate 11 "t") [] []
        = parallel_search_terms ((List.replicate 11 "t").take 10) [] []
    ∧ launchedSearches (List.replicate 11 "t") = (List.replicate 11 "t").take 10
    ∧ (launchedSearches (List.replicate 11 "t")).length = 10 :=
  parallel_search_truncates_to_ten (List.replicate 11 "t") [] [] (by decide)

/-- C2: in every state reachable from the startup state of the single
process-wide semaphore of capacity C, the number of invocations holding a
slot (each holding it from before its process spawns until it settles, and
releasing exactly once on settling by the release transition) plus the free
counter equals C, so at most C external search processes run at once. -/
theorem ugrep_semaphore_bound (capacity numTasks : Nat) (s : SemState)
    (h : SemReachable capacity numTasks s) :
    countRunning s.phases ≤ capacity
    ∧ s.avail + countRunning s.phases = capacity := by
  have hinv := semReachable_inv h
  exact ⟨by omega, hinv⟩

/-- C2 witness: the startup state with capacity 2 and three pending
invocations satisfies the bound. -/
theorem ugrep_semaphore_bound_witness :
    countRunning (semInit 2 3).phases ≤ 2
    ∧ (semInit 2 3).avail + countRunning (semInit 2 3).phases = 2 :=
  ugrep_semaphore_bound 2 3 (semInit 2 3) Relation.ReflTransGen.refl

end RulesLawyerBot
